import Mathlib

/-!
Verification of the TubeWise asynchronous job-queue subsystem.

The definitions below are a shallow embedding of `queue_manager.py`
(the SQLite-backed `QueueManager`) and of the dispatcher loop in
`worker.py`.  The jobs table is modelled as a `List Job` in rowid
order; the `datetime` timestamp and `os.getpid()` are passed in explicitly
as the `now` and `pid` arguments of each operation.
-/

namespace TubeWise

/-- Job status column: the string enum used by `queue_manager.py`. -/
inductive Status where
  | pending
  | processing
  | completed
  | failed
deriving DecidableEq, Repr

/-- One row of the `jobs` table (schema from `_ensure_db`). -/
structure Job where
  id : Nat
  url : String
  source : String
  status : Status
  language : String
  no_notion : Bool
  created_at : String
  started_at : Option String
  completed_at : Option String
  error_message : Option String
  notion_page_url : Option String
  local_file_path : Option String
  worker_pid : Option Nat
deriving DecidableEq, Repr

/-- The test that a row has status `pending`. -/
def isPending (j : Job) : Bool :=
  match j.status with
  | .pending => true
  | _ => false

/-- The test that a row has status `processing`. -/
def isProcessing (j : Job) : Bool :=
  match j.status with
  | .processing => true
  | _ => false

/-- Python string slicing `s[:n]`: the first `n` characters. -/
def pySlice (s : String) (n : Nat) : String :=
  ⟨s.data.take n⟩

/-- Minimum of a list of naturals, `none` on the empty list
(semantics of `ORDER BY id ASC LIMIT 1` over a set of ids). -/
def minNat? : List Nat → Option Nat
  | [] => none
  | x :: xs =>
    some (match minNat? xs with
      | none => x
      | some m => min x m)

/-- Ids of the rows whose status is `pending`. -/
def pendingIds (s : List Job) : List Nat :=
  (s.filter isPending).map Job.id

/-- The subquery of `get_next_pending`:
`SELECT id FROM jobs WHERE status = pending ORDER BY id ASC LIMIT 1`. -/
def oldestPendingId (s : List Job) : Option Nat :=
  minNat? (pendingIds s)

/-- Row update performed by the claiming `UPDATE ... WHERE id = i`. -/
def claimFn (i pid : Nat) (now : String) (j : Job) : Job :=
  if j.id = i then
    { j with status := .processing, started_at := some now, worker_pid := some pid }
  else j

/-- The `UPDATE jobs SET status=processing, started_at=now, worker_pid=pid
WHERE id = (SELECT id FROM jobs WHERE status=pending ORDER BY id ASC LIMIT 1)`
statement of `QueueManager.get_next_pending`. -/
def claimUpdate (pid : Nat) (now : String) (s : List Job) : List Job :=
  match oldestPendingId s with
  | none => s
  | some i => s.map (claimFn i pid now)

/-- Rows matching `status = processing AND worker_pid = pid`. -/
def ownedProcessing (pid : Nat) (s : List Job) : List Job :=
  s.filter (fun j => isProcessing j && decide (j.worker_pid = some pid))

/-- `ORDER BY id DESC LIMIT 1`: the row with the greatest id
(first such row wins on a tie, which a unique primary key rules out). -/
def maxById : List Job → Option Job
  | [] => none
  | j :: rest =>
    match maxById rest with
    | none => some j
    | some b => some (if j.id < b.id then b else j)

/-- The re-fetch query of `get_next_pending`:
`SELECT * FROM jobs WHERE status = processing AND worker_pid = ?
ORDER BY id DESC LIMIT 1`. -/
def fetchClaimed (pid : Nat) (s : List Job) : Option Job :=
  maxById (ownedProcessing pid s)

/-- `QueueManager.get_next_pending`: the claiming `UPDATE` followed by the
re-fetch.  Returns the updated table and the fetched row. -/
def get_next_pending (pid : Nat) (now : String) (s : List Job) :
    List Job × Option Job :=
  let s1 := claimUpdate pid now s
  (s1, fetchClaimed pid s1)

/-- Row update of the `UPDATE ... WHERE id = ?` in `QueueManager.mark_completed`. -/
def completeFn (job_id : Nat) (notion_url local_file now : String) (j : Job) : Job :=
  if j.id = job_id then
    { j with status := .completed, completed_at := some now,
             notion_page_url := some notion_url, local_file_path := some local_file }
  else j

/-- `QueueManager.mark_completed`. -/
def mark_completed (job_id : Nat) (notion_url local_file now : String)
    (s : List Job) : List Job :=
  s.map (completeFn job_id notion_url local_file now)

/-- Row update of the `UPDATE ... WHERE id = ?` in `QueueManager.mark_failed`;
the error is truncated to 500 characters by `error[:500]`. -/
def failFn (job_id : Nat) (error now : String) (j : Job) : Job :=
  if j.id = job_id then
    { j with status := .failed, completed_at := some now,
             error_message := some (pySlice error 500) }
  else j

/-- `QueueManager.mark_failed`. -/
def mark_failed (job_id : Nat) (error now : String) (s : List Job) : List Job :=
  s.map (failFn job_id error now)

/-- Row update of the statement
`UPDATE jobs SET status=pending, worker_pid=NULL, started_at=NULL
WHERE status=processing` in `QueueManager.reset_stale_jobs`. -/
def resetFn (j : Job) : Job :=
  if isProcessing j then
    { j with status := .pending, worker_pid := none, started_at := none }
  else j

/-- `QueueManager.reset_stale_jobs`: resets every `processing` row and
returns `cursor.rowcount`, the number of rows the `UPDATE` matched. -/
def reset_stale_jobs : List Job → List Job × Nat
  | [] => ([], 0)
  | j :: rest =>
    let r := reset_stale_jobs rest
    if isProcessing j then
      ({ j with status := .pending, worker_pid := none, started_at := none } :: r.1,
       r.2 + 1)
    else
      (j :: r.1, r.2)

/-- `AUTOINCREMENT`: the next id is larger than every existing id. -/
def nextId (s : List Job) : Nat :=
  (s.map Job.id).foldr max 0 + 1

/-- The fresh row inserted by `QueueManager.enqueue`
(`INSERT INTO jobs (url, source, language, no_notion) VALUES (...)`,
all other columns taking their schema defaults). -/
def newJob (url language : String) (no_notion : Bool) (now : String) (i : Nat) : Job :=
  { id := i, url := url, source := "youtube", status := .pending,
    language := language, no_notion := no_notion, created_at := now,
    started_at := none, completed_at := none, error_message := none,
    notion_page_url := none, local_file_path := none, worker_pid := none }

/-- `QueueManager.enqueue`: appends the new `pending` row and returns its id. -/
def enqueue (url language : String) (no_notion : Bool) (now : String)
    (s : List Job) : List Job × Nat :=
  (s ++ [newJob url language no_notion now (nextId s)], nextId s)

/-- Number of `pending` rows. -/
def pendingCount (s : List Job) : Nat :=
  (s.filter isPending).length

/-! Concrete stores used by the counterexample and failing-input theorems. -/

/-- A single freshly enqueued job (id 1, `pending`). -/
def jp1 : Job :=
  { id := 1, url := "u1", source := "youtube", status := .pending,
    language := "en", no_notion := false, created_at := "t0",
    started_at := none, completed_at := none, error_message := none,
    notion_page_url := none, local_file_path := none, worker_pid := none }

/-- `jp1` after being claimed by pid 42 at time `t1`. -/
def claimed1 : Job :=
  { jp1 with status := .processing, started_at := some "t1", worker_pid := some 42 }

/-- A job (id 2) in `processing`, owned by pid 42. -/
def jproc2 : Job :=
  { id := 2, url := "u2", source := "youtube", status := .processing,
    language := "en", no_notion := false, created_at := "t0",
    started_at := some "t0", completed_at := none, error_message := none,
    notion_page_url := none, local_file_path := none, worker_pid := some 42 }

/-- A job (id 1) already `completed`. -/
def jdone1 : Job :=
  { id := 1, url := "u1", source := "youtube", status := .completed,
    language := "en", no_notion := false, created_at := "t0",
    started_at := some "t0", completed_at := some "t0", error_message := none,
    notion_page_url := some "n0", local_file_path := some "f0", worker_pid := some 42 }

/-- The status transitions the spec allows: stay put, `pending → processing`
(claim), `processing → completed/failed` (terminal), or the explicit
recovery reset `processing → pending`. -/
def allowedStep (a b : Status) : Prop :=
  a = b ∨ (a = .pending ∧ b = .processing) ∨
    (a = .processing ∧ (b = .completed ∨ b = .failed ∨ b = .pending))

instance (a b : Status) : Decidable (allowedStep a b) := by
  unfold allowedStep
  infer_instance

/-- A 501-character error string, used to exercise truncation. -/
def eLong : String := ⟨List.replicate 501 'x'⟩

/-!
Shallow embedding of the dispatcher loop of `worker.py`.  The Pipeline
collaborator and the process pool are external effects: they are modelled
by explicit outcome values fed into the embedded control flow.
-/

/-- The result dict built by `worker.process_single_job`. -/
structure JobResult where
  job_id : Nat
  status : String
  notion_url : String
  local_file : String
  error : String
deriving DecidableEq, Repr

/-- Outcome of one Pipeline execution inside a worker process: either the
artifacts produced by the fetch-summarize-save-publish steps, or the
message of the exception they raised. -/
inductive PipelineOutcome where
  | ok (notion_url local_file : String)
  | raised (msg : String)
deriving DecidableEq, Repr

/-- `worker.process_single_job`: the `try` branch packages the Pipeline
artifacts as a "completed" result dict; the `except Exception as e` branch
turns any exception into a "failed" result dict carrying `str(e)` — it
never re-raises. -/
def process_single_job (job : Job) : PipelineOutcome → JobResult
  | .ok nurl lfile =>
    { job_id := job.id, status := "completed", notion_url := nurl,
      local_file := lfile, error := "" }
  | .raised msg =>
    { job_id := job.id, status := "failed", notion_url := "",
      local_file := "", error := msg }

/-- What `future.result()` yields in the dispatcher loop: the result dict
of the worker, or the exception the future re-raises when the worker
process itself crashed. -/
inductive FutureOutcome where
  | value (r : JobResult)
  | crashed (msg : String)
deriving DecidableEq, Repr

/-- Handling of one finished future in `run_worker`: a "completed" result
goes to `mark_completed`; any other result goes to `mark_failed` with the
error of the result; an exception raised by `future.result()` is caught and also
recorded via `mark_failed(job_id, str(e))`. -/
def reap_one (now : String) (store : List Job) (job_id : Nat) :
    FutureOutcome → List Job
  | .value r =>
    if r.status = "completed" then
      mark_completed job_id r.notion_url r.local_file now store
    else
      mark_failed job_id r.error now store
  | .crashed msg => mark_failed job_id msg now store

/-- The submit phase of `run_worker`: while the pool has free capacity,
claim the next job and dispatch it; stop at the first `none`.  Returns the
updated store and the dispatched jobs in claim order. -/
def claim_phase (pid : Nat) (now : String) : Nat → List Job → List Job × List Job
  | 0, s => (s, [])
  | cap + 1, s =>
    match get_next_pending pid now s with
    | (s1, none) => (s1, [])
    | (s1, some j) =>
      let r := claim_phase pid now cap s1
      (r.1, j :: r.2)

/-- One turn of the `while not _shutdown_requested` loop of `run_worker`:
when shutdown has been requested the loop exits (`none`); otherwise the
finished futures are reaped, free capacity is filled with fresh claims, and
the loop continues (`some updated-state`). -/
def run_worker_iteration (shutdownRequested : Bool) (pid : Nat) (now : String)
    (cap : Nat) (done : List (Nat × FutureOutcome)) (store : List Job) :
    Option (List Job × List Job) :=
  if shutdownRequested then none
  else
    let s1 := done.foldl (fun st d => reap_one now st d.1 d.2) store
    some (claim_phase pid now cap s1)

/-- An in-flight worker slot: the job id it runs and how much Pipeline work
remains, in abstract time units. -/
structure Slot where
  jobId : Nat
  remaining : Nat
deriving DecidableEq, Repr

/-- `future.done()`. -/
def futureDone (sl : Slot) : Bool := sl.remaining == 0

/-- `executor.shutdown(wait=True, cancel_futures=False)` blocks until every
in-flight slot has run to completion. -/
def executorShutdownWait (slots : List Slot) : List Slot :=
  slots.map (fun sl => { sl with remaining := 0 })

/-- How long the `executor.shutdown(wait=True)` call blocks: until the
slowest in-flight slot finishes. -/
def shutdownWaitTime (slots : List Slot) : Nat :=
  (slots.map Slot.remaining).foldr max 0

/-- The `finally` block of `run_worker`: shut the pool down waiting for all
futures, then mark the job of every future that is still not done as failed
with "Worker shutdown while processing". -/
def run_worker_finally (now : String) (slots : List Slot) (store : List Job) :
    List Job :=
  ((executorShutdownWait slots).filter (fun sl => ! futureDone sl)).foldl
    (fun st sl => mark_failed sl.jobId "Worker shutdown while processing" now st)
    store

/-! Helper lemmas about the embedded operations. -/

theorem minNat?_mem : ∀ {l : List Nat} {i : Nat}, minNat? l = some i → i ∈ l := by
  intro l
  induction l with
  | nil => intro i h; cases h
  | cons x xs ih =>
    intro i h
    simp only [minNat?] at h
    cases hxs : minNat? xs with
    | none => rw [hxs] at h; simp at h; simp [h]
    | some m =>
      rw [hxs] at h
      simp at h
      rcases Nat.le_total x m with hle | hle
      · rw [min_eq_left hle] at h; simp [h]
      · rw [min_eq_right hle] at h
        exact List.mem_cons_of_mem _ (h ▸ ih hxs)

theorem minNat?_le : ∀ {l : List Nat} {i : Nat}, minNat? l = some i →
    ∀ k ∈ l, i ≤ k := by
  intro l
  induction l with
  | nil => intro i h; cases h
  | cons x xs ih =>
    intro i h k hk
    simp only [minNat?] at h
    cases hxs : minNat? xs with
    | none =>
      rw [hxs] at h; simp at h
      cases xs with
      | nil => simp at hk; omega
      | cons y ys => simp [minNat?] at hxs
    | some m =>
      rw [hxs] at h; simp at h
      rcases List.mem_cons.mp hk with rfl | hk'
      · exact h ▸ Nat.min_le_left _ _
      · exact Nat.le_trans (h ▸ Nat.min_le_right x m) (ih hxs k hk')

theorem minNat?_eq_some (l : List Nat) (i : Nat) (hmem : i ∈ l)
    (hle : ∀ k ∈ l, i ≤ k) : minNat? l = some i := by
  induction l with
  | nil => cases hmem
  | cons x xs ih =>
    simp only [minNat?]
    cases hxs : minNat? xs with
    | none =>
      cases xs with
      | nil => simp at hmem; simp [hmem]
      | cons y ys => simp [minNat?] at hxs
    | some m =>
      have hm : m ∈ xs := minNat?_mem hxs
      have h1 : i ≤ x := hle x (List.mem_cons_self _ _)
      have h2 : i ≤ m := hle m (List.mem_cons_of_mem _ hm)
      rcases List.mem_cons.mp hmem with rfl | hmem'
      · have : min i m = i := min_eq_left h2
        simp [this]
      · have hmi : m ≤ i := minNat?_le hxs i hmem'
        have : m = i := Nat.le_antisymm hmi h2
        subst this
        simp [min_eq_right h1]

theorem map_eq_self_of {α : Type} (f : α → α) :
    ∀ (l : List α), (∀ a ∈ l, f a = a) → l.map f = l := by
  intro l
  induction l with
  | nil => intro _; rfl
  | cons x xs ih =>
    intro h
    simp only [List.map_cons]
    rw [h x (List.mem_cons_self _ _), ih (fun a ha => h a (List.mem_cons_of_mem _ ha))]

theorem map_comp_self {α : Type} (f : α → α) (hf : ∀ a, f (f a) = f a) :
    ∀ (l : List α), (l.map f).map f = l.map f := by
  intro l
  induction l with
  | nil => rfl
  | cons x xs ih => simp only [List.map_cons, hf, ih]

theorem claimFn_id (i pid : Nat) (now : String) (j : Job) :
    (claimFn i pid now j).id = j.id := by
  unfold claimFn
  split <;> rfl

theorem resetFn_id (j : Job) : (resetFn j).id = j.id := by
  unfold resetFn
  split <;> rfl

theorem completeFn_id (job_id : Nat) (nu lf now : String) (j : Job) :
    (completeFn job_id nu lf now j).id = j.id := by
  unfold completeFn
  split <;> rfl

theorem failFn_id (job_id : Nat) (e now : String) (j : Job) :
    (failFn job_id e now j).id = j.id := by
  unfold failFn
  split <;> rfl

/-- `reset_stale_jobs` updates rows pointwise. -/
theorem reset_stale_jobs_fst (s : List Job) :
    (reset_stale_jobs s).1 = s.map resetFn := by
  induction s with
  | nil => rfl
  | cons j rest ih =>
    simp only [reset_stale_jobs, List.map_cons]
    by_cases h : isProcessing j = true
    · simp [h, resetFn, ih]
    · simp only [Bool.not_eq_true] at h
      simp [h, resetFn, ih]

/-- `reset_stale_jobs` reports the number of `processing` rows it matched. -/
theorem reset_stale_jobs_snd (s : List Job) :
    (reset_stale_jobs s).2 = (s.filter isProcessing).length := by
  induction s with
  | nil => rfl
  | cons j rest ih =>
    simp only [reset_stale_jobs, List.filter_cons]
    by_cases h : isProcessing j = true
    · simp [h, ih]
    · simp only [Bool.not_eq_true] at h
      simp [h, ih]

theorem isPending_iff (j : Job) : isPending j = true ↔ j.status = .pending := by
  unfold isPending
  cases j.status <;> simp

theorem isProcessing_iff (j : Job) :
    isProcessing j = true ↔ j.status = .processing := by
  unfold isProcessing
  cases j.status <;> simp

/-- Unpacking `oldestPendingId`: the returned id belongs to a `pending` row
and is least among the ids of `pending` rows. -/
theorem oldestPendingId_spec (s : List Job) (i : Nat)
    (h : oldestPendingId s = some i) :
    (∃ j, j ∈ s ∧ j.id = i ∧ j.status = .pending) ∧
      ∀ j ∈ s, j.status = .pending → i ≤ j.id := by
  unfold oldestPendingId at h
  constructor
  · have hmem := minNat?_mem h
    unfold pendingIds at hmem
    rcases List.mem_map.mp hmem with ⟨j, hj, hid⟩
    rcases List.mem_filter.mp hj with ⟨hjs, hjp⟩
    exact ⟨j, hjs, hid, (isPending_iff j).mp hjp⟩
  · intro j hj hjp
    refine minNat?_le h j.id ?_
    unfold pendingIds
    exact List.mem_map.mpr ⟨j, List.mem_filter.mpr ⟨hj, (isPending_iff j).mpr hjp⟩, rfl⟩

/-- Conversely, the least pending id is what `oldestPendingId` returns. -/
theorem oldestPendingId_eq (s : List Job) (jp : Job) (hjp : jp ∈ s)
    (hpend : jp.status = .pending)
    (hmin : ∀ j ∈ s, j.status = .pending → jp.id ≤ j.id) :
    oldestPendingId s = some jp.id := by
  unfold oldestPendingId
  refine minNat?_eq_some _ _ ?_ ?_
  · unfold pendingIds
    exact List.mem_map.mpr ⟨jp, List.mem_filter.mpr ⟨hjp, (isPending_iff jp).mpr hpend⟩, rfl⟩
  · intro k hk
    unfold pendingIds at hk
    rcases List.mem_map.mp hk with ⟨j, hj, hid⟩
    rcases List.mem_filter.mp hj with ⟨hjs, hjpend⟩
    exact hid ▸ hmin j hjs ((isPending_iff j).mp hjpend)

theorem maxById_mem : ∀ {l : List Job} {b : Job}, maxById l = some b → b ∈ l := by
  intro l
  induction l with
  | nil => intro b h; cases h
  | cons j rest ih =>
    intro b h
    simp only [maxById] at h
    cases hr : maxById rest with
    | none => rw [hr] at h; simp at h; simp [h]
    | some c =>
      rw [hr] at h; simp at h
      by_cases hlt : j.id < c.id
      · rw [if_pos hlt] at h
        exact List.mem_cons_of_mem _ (h ▸ ih hr)
      · rw [if_neg hlt] at h
        simp [h]

/-- If `c` is in `l`, no element of `l` has a larger id, and `c` is the only
element with its id, then `ORDER BY id DESC LIMIT 1` yields `c`. -/
theorem maxById_eq (l : List Job) (c : Job) (hc : c ∈ l)
    (hmax : ∀ x ∈ l, x.id ≤ c.id) (huniq : ∀ x ∈ l, x.id = c.id → x = c) :
    maxById l = some c := by
  induction l with
  | nil => cases hc
  | cons j rest ih =>
    simp only [maxById]
    cases hr : maxById rest with
    | none =>
      cases rest with
      | nil =>
        simp at hc
        simp [hc]
      | cons y ys =>
        exfalso
        simp only [maxById] at hr
        cases hys : maxById ys <;> simp [hys] at hr
    | some b =>
      have hb : b ∈ rest := maxById_mem hr
      rcases List.mem_cons.mp hc with rfl | hc'
      · have hble : b.id ≤ c.id := hmax b (List.mem_cons_of_mem _ hb)
        have hnlt : ¬ c.id < b.id := Nat.not_lt.mpr hble
        show some (if c.id < b.id then b else c) = some c
        rw [if_neg hnlt]
      · have hmr : maxById rest = some c := by
          refine ih hc' (fun x hx => hmax x (List.mem_cons_of_mem _ hx))
            (fun x hx => huniq x (List.mem_cons_of_mem _ hx))
        rw [hr] at hmr
        have hbc : b = c := by injection hmr
        have hjle : j.id ≤ c.id := hmax j (List.mem_cons_self _ _)
        show some (if j.id < b.id then b else j) = some c
        by_cases hlt : j.id < b.id
        · rw [if_pos hlt, hbc]
        · have hid : j.id = c.id :=
            Nat.le_antisymm hjle (hbc ▸ Nat.not_lt.mp hlt)
          have hj : j = c := huniq j (List.mem_cons_self _ _) hid
          rw [if_neg hlt, hj]

/-- Jobs with the same id in a store with no duplicate ids are equal. -/
theorem eq_of_id_eq {s : List Job} (h : (s.map Job.id).Nodup)
    {x y : Job} (hx : x ∈ s) (hy : y ∈ s) (hxy : x.id = y.id) : x = y :=
  List.inj_on_of_nodup_map h hx hy hxy

/-- General specification of `get_next_pending` on a store with unique ids
and at least one `pending` job: the oldest pending job `jp` is the one the
`UPDATE` transitions, and the re-fetch returns it provided the caller owns
no `processing` row with a larger id. -/
theorem claim_spec (s : List Job) (h : (s.map Job.id).Nodup) (pid : Nat)
    (now : String) (jp : Job) (hjp : jp ∈ s) (hpend : jp.status = .pending)
    (hmin : ∀ j ∈ s, j.status = .pending → jp.id ≤ j.id) :
    oldestPendingId s = some jp.id ∧
    (get_next_pending pid now s).1 = s.map (claimFn jp.id pid now) ∧
    claimFn jp.id pid now jp =
      { jp with status := .processing, started_at := some now, worker_pid := some pid } ∧
    (∀ j ∈ s, j.id ≠ jp.id → claimFn jp.id pid now j = j) ∧
    ((∀ x ∈ s, x.status = .processing → x.worker_pid = some pid → x.id < jp.id) →
      (get_next_pending pid now s).2 =
        some { jp with status := .processing, started_at := some now,
                       worker_pid := some pid }) := by
  have hold : oldestPendingId s = some jp.id := oldestPendingId_eq s jp hjp hpend hmin
  have hupd : claimUpdate pid now s = s.map (claimFn jp.id pid now) := by
    unfold claimUpdate
    rw [hold]
  refine ⟨hold, hupd, ?_, ?_, ?_⟩
  · unfold claimFn
    rw [if_pos rfl]
  · intro j _ hne
    unfold claimFn
    rw [if_neg hne]
  · intro hside
    have hfst : (get_next_pending pid now s).1 = claimUpdate pid now s := rfl
    show fetchClaimed pid (claimUpdate pid now s) = _
    rw [hupd]
    set c : Job :=
      { jp with status := .processing, started_at := some now,
                worker_pid := some pid } with hc
    have hcjp : claimFn jp.id pid now jp = c := by
      unfold claimFn
      rw [if_pos rfl]
    unfold fetchClaimed
    refine maxById_eq _ c ?_ ?_ ?_
    · refine List.mem_filter.mpr ⟨?_, ?_⟩
      · exact List.mem_map.mpr ⟨jp, hjp, hcjp⟩
      · simp [hc, isProcessing]
    · intro x hx
      rcases List.mem_filter.mp hx with ⟨hxm, hxp⟩
      rcases List.mem_map.mp hxm with ⟨j0, hj0, hj0x⟩
      have hxid : x.id = j0.id := by rw [← hj0x, claimFn_id]
      by_cases hji : j0.id = jp.id
      · rw [hxid, hji]
      · have hx0 : x = j0 := by
          rw [← hj0x]
          unfold claimFn
          rw [if_neg hji]
        subst hx0
        have hproc : x.status = .processing := by
          rw [← isProcessing_iff]
          exact (Bool.and_eq_true _ _).mp hxp |>.1
        have hpid : x.worker_pid = some pid := by
          have := (Bool.and_eq_true _ _).mp hxp |>.2
          exact of_decide_eq_true this
        exact Nat.le_of_lt (hside x hj0 hproc hpid)
    · intro x hx hxid
      rcases List.mem_filter.mp hx with ⟨hxm, _⟩
      rcases List.mem_map.mp hxm with ⟨j0, hj0, hj0x⟩
      have hj0id : j0.id = jp.id := by
        have h1 : x.id = j0.id := by rw [← hj0x, claimFn_id]
        have h2 : c.id = jp.id := rfl
        rw [h1, h2] at hxid
        exact hxid
      have : j0 = jp := eq_of_id_eq h hj0 hjp hj0id
      rw [← hj0x, this, hcjp]

/-- Claim C1: under callers racing against M pending jobs, each job should be
claimed by exactly one caller and total successful claims should equal M.
The code violates this already for a single caller and M = 1: with one
pending job, the first call claims it, and a second call by the same process
— although the `UPDATE` matches no row — again returns the very same job
(its re-fetch selects any `processing` row owned by the calling pid), so the
caller observes two successful claims of the one job. -/
theorem get_next_pending_double_claim :
    pendingCount [jp1] = 1 ∧
    (get_next_pending 42 "t1" [jp1]).2 = some claimed1 ∧
    (get_next_pending 42 "t2" (get_next_pending 42 "t1" [jp1]).1).2 = some claimed1 := by
  refine ⟨rfl, rfl, rfl⟩

/-- Claim C2: `get_next_pending` should return none whenever no job is
`pending`.  Failing input: a store whose only job is `processing` and owned
by the calling pid — the operation returns that job instead of none. -/
theorem get_next_pending_not_none_without_pending :
    pendingCount [jproc2] = 0 ∧
    get_next_pending 42 "t1" [jproc2] = ([jproc2], some jproc2) := by
  refine ⟨rfl, rfl⟩

/-- Claim C3 (counterexample): `get_next_pending` is claimed to return the
very job it transitions.  On the store `[jp1, jproc2]` (job 1 is the oldest
pending job, job 2 is a `processing` job owned by the calling pid) the
`UPDATE` transitions job 1 to `processing`, yet the re-fetch returns job 2. -/
theorem get_next_pending_returns_other_job :
    (get_next_pending 42 "t1" [jp1, jproc2]).1 = [claimed1, jproc2] ∧
    (get_next_pending 42 "t1" [jp1, jproc2]).2 = some jproc2 := by
  refine ⟨rfl, rfl⟩

/-- Claim C3 (amended): on a store with unique ids holding a pending job,
`get_next_pending` transitions exactly the oldest pending job `jp` to
`processing`, stamping `started_at` and the worker pid, leaving every other
row unchanged; the returned row equals that job whenever the calling worker
owns no `processing` row with a larger id (in particular, always, except in
stores where the caller already owns such a row). -/
theorem get_next_pending_claims_oldest_pending (s : List Job)
    (h : (s.map Job.id).Nodup) (pid : Nat) (now : String) (jp : Job)
    (hjp : jp ∈ s) (hpend : jp.status = .pending)
    (hmin : ∀ j ∈ s, j.status = .pending → jp.id ≤ j.id) :
    oldestPendingId s = some jp.id ∧
    (get_next_pending pid now s).1 = s.map (claimFn jp.id pid now) ∧
    claimFn jp.id pid now jp =
      { jp with status := .processing, started_at := some now, worker_pid := some pid } ∧
    (∀ j ∈ s, j.id ≠ jp.id → claimFn jp.id pid now j = j) ∧
    ((∀ x ∈ s, x.status = .processing → x.worker_pid = some pid → x.id < jp.id) →
      (get_next_pending pid now s).2 =
        some { jp with status := .processing, started_at := some now,
                       worker_pid := some pid }) :=
  claim_spec s h pid now jp hjp hpend hmin

/-- Claim C3 (witness): the amended claim evaluated on the one-job store. -/
theorem get_next_pending_claims_oldest_pending_witness :
    oldestPendingId [jp1] = some jp1.id ∧
    (get_next_pending 42 "t1" [jp1]).1 = [jp1].map (claimFn jp1.id 42 "t1") ∧
    (get_next_pending 42 "t1" [jp1]).2 =
      some { jp1 with status := .processing, started_at := some "t1",
                      worker_pid := some 42 } :=
  have h := get_next_pending_claims_oldest_pending [jp1] (by decide) 42 "t1" jp1
    (by decide) rfl (by decide)
  ⟨h.1, h.2.1, h.2.2.2.2 (by decide)⟩

/-- Claim C4 (counterexample): `mark_failed` on a job that is already
`completed` is no no-op — it flips the status to `failed`, restamps
`completed_at` and writes `error_message`. -/
theorem mark_failed_overwrites_completed :
    jdone1.status = Status.completed ∧
    mark_failed 1 "boom" "t1" [jdone1] =
      [{ jdone1 with status := .failed, completed_at := some "t1",
                     error_message := some "boom" }] ∧
    mark_failed 1 "boom" "t1" [jdone1] ≠ [jdone1] := by
  refine ⟨rfl, rfl, by decide⟩

/-- Claim C4 (amended): `mark_completed` and `mark_failed` are idempotent in
the sense that repeating the identical call (same job id, same payload, same
timestamp) changes nothing further; they are, however, not guarded by the
current status, so a call on an already-terminal job still overwrites its
record. -/
theorem mark_terminal_idempotent_same_call (job_id : Nat)
    (nu lf e now : String) (s : List Job) :
    mark_completed job_id nu lf now (mark_completed job_id nu lf now s) =
      mark_completed job_id nu lf now s ∧
    mark_failed job_id e now (mark_failed job_id e now s) =
      mark_failed job_id e now s := by
  constructor
  · have hpt : ∀ j, completeFn job_id nu lf now (completeFn job_id nu lf now j) =
        completeFn job_id nu lf now j := by
      intro j
      unfold completeFn
      by_cases hj : j.id = job_id
      · simp [hj]
      · simp [hj]
    exact map_comp_self _ hpt s
  · have hpt : ∀ j, failFn job_id e now (failFn job_id e now j) =
        failFn job_id e now j := by
      intro j
      unfold failFn
      by_cases hj : j.id = job_id
      · simp [hj]
      · simp [hj]
    exact map_comp_self _ hpt s

/-- Claim C5 (counterexample): `mark_completed` on a job that is still
`pending` moves it straight to `completed`, skipping `processing` — a
transition outside the advertised state machine. -/
theorem mark_completed_skips_processing :
    jp1.status = Status.pending ∧
    mark_completed 1 "n1" "f1" "t1" [jp1] =
      [{ jp1 with status := .completed, completed_at := some "t1",
                  notion_page_url := some "n1", local_file_path := some "f1" }] ∧
    decide (allowedStep Status.pending Status.completed) = false := by
  refine ⟨rfl, rfl, by decide⟩

/-- Claim C5 (amended): on stores with unique ids, the claim and reset
operations respect the advertised state machine (claim moves a row only
`pending → processing`, reset only `processing → pending`), and `enqueue`
only appends a fresh `pending` row; `mark_completed` / `mark_failed`,
however, set the status unconditionally, so operation sequences using them
on non-`processing` jobs can skip or reverse states. -/
theorem claim_reset_enqueue_respect_transitions (s : List Job)
    (h : (s.map Job.id).Nodup) (pid : Nat) (now url lang : String) (nn : Bool) :
    (∀ j ∈ s, ∀ j' ∈ (get_next_pending pid now s).1, j'.id = j.id →
      allowedStep j.status j'.status) ∧
    (∀ j ∈ s, ∀ j' ∈ (reset_stale_jobs s).1, j'.id = j.id →
      allowedStep j.status j'.status) ∧
    (∀ j ∈ s, j ∈ (enqueue url lang nn now s).1) ∧
    (enqueue url lang nn now s).1 = s ++ [newJob url lang nn now (nextId s)] ∧
    (newJob url lang nn now (nextId s)).status = Status.pending := by
  refine ⟨?_, ?_, ?_, rfl, rfl⟩
  · intro j hj j' hj' hid
    have hfst : (get_next_pending pid now s).1 = claimUpdate pid now s := rfl
    rw [hfst] at hj'
    unfold claimUpdate at hj'
    cases hold : oldestPendingId s with
    | none =>
      rw [hold] at hj'
      have : j' = j := eq_of_id_eq h hj' hj hid
      exact Or.inl (this ▸ rfl)
    | some i =>
      rw [hold] at hj'
      rcases List.mem_map.mp hj' with ⟨j0, hj0, hj0x⟩
      have hid0 : j0.id = j.id := by rw [← hid, ← hj0x, claimFn_id]
      have hj0j : j0 = j := eq_of_id_eq h hj0 hj hid0
      subst hj0j
      by_cases hi : j0.id = i
      · rcases (oldestPendingId_spec s i hold).1 with ⟨jp, hjp, hjpid, hjppend⟩
        have : j0 = jp := eq_of_id_eq h hj0 hjp (by rw [hi, hjpid])
        have hpend : j0.status = .pending := by rw [this, hjppend]
        have hst : j'.status = .processing := by
          rw [← hj0x]
          unfold claimFn
          rw [if_pos hi]
        exact Or.inr (Or.inl ⟨hpend, hst⟩)
      · have : j' = j0 := by
          rw [← hj0x]
          unfold claimFn
          rw [if_neg hi]
        exact Or.inl (this ▸ rfl)
  · intro j hj j' hj' hid
    rw [reset_stale_jobs_fst] at hj'
    rcases List.mem_map.mp hj' with ⟨j0, hj0, hj0x⟩
    have hid0 : j0.id = j.id := by rw [← hid, ← hj0x, resetFn_id]
    have hj0j : j0 = j := eq_of_id_eq h hj0 hj hid0
    subst hj0j
    by_cases hp : isProcessing j0 = true
    · have hst : j'.status = .pending := by
        rw [← hj0x]
        unfold resetFn
        rw [if_pos hp]
      exact Or.inr (Or.inr ⟨(isProcessing_iff j0).mp hp, Or.inr (Or.inr hst)⟩)
    · have : j' = j0 := by
        rw [← hj0x]
        unfold resetFn
        rw [if_neg hp]
      exact Or.inl (this ▸ rfl)
  · intro j hj
    exact List.mem_append.mpr (Or.inl hj)

/-- Claim C5 (witness): the amended claim evaluated on the one-job store:
claiming moves the pending job to `processing`, an allowed step, and
`enqueue` on the empty store appends the fresh pending job with id 1. -/
theorem claim_reset_enqueue_respect_transitions_witness :
    allowedStep jp1.status claimed1.status ∧
    (enqueue "u" "en" false "t1" [jp1]).1 = [jp1, newJob "u" "en" false "t1" 2] :=
  have h := claim_reset_enqueue_respect_transitions [jp1] (by decide) 42 "t1" "u" "en" false
  ⟨h.1 jp1 (by decide) claimed1 (by decide) (by decide), h.2.2.2.1.trans rfl⟩

/-- Claim C6: `mark_failed` stores `error[:500]`: the error unchanged when it
has at most 500 characters, its 500-character prefix otherwise; the stored
message never exceeds 500 characters. -/
theorem mark_failed_truncates_error (job_id : Nat) (error now : String)
    (s : List Job) :
    (∀ j ∈ mark_failed job_id error now s, j.id = job_id →
      j.error_message = some (pySlice error 500)) ∧
    (error.length ≤ 500 → pySlice error 500 = error) ∧
    (500 < error.length → (pySlice error 500).length = 500) ∧
    (pySlice error 500).length ≤ 500 := by
  refine ⟨?_, ?_, ?_, ?_⟩
  · intro j hj hid
    rcases List.mem_map.mp hj with ⟨j0, hj0, hj0x⟩
    by_cases h0 : j0.id = job_id
    · rw [← hj0x]
      unfold failFn
      rw [if_pos h0]
    · exfalso
      have : j = j0 := by
        rw [← hj0x]
        unfold failFn
        rw [if_neg h0]
      exact h0 (by rw [← this, hid])
  · intro hle
    exact congrArg String.mk (List.take_of_length_le hle)
  · intro hgt
    unfold pySlice
    show (error.data.take 500).length = 500
    rw [List.length_take]
    exact Nat.min_eq_left (Nat.le_of_lt hgt)
  · unfold pySlice
    show (error.data.take 500).length ≤ 500
    rw [List.length_take]
    exact Nat.min_le_left _ _

set_option maxRecDepth 4000 in
/-- Claim C6 (witness): a 501-character error is stored truncated to exactly
500 characters. -/
theorem mark_failed_truncates_error_witness :
    failFn 1 eLong "t1" jp1 ∈ mark_failed 1 eLong "t1" [jp1] ∧
    (failFn 1 eLong "t1" jp1).error_message = some (pySlice eLong 500) ∧
    (pySlice eLong 500).length = 500 :=
  have h := mark_failed_truncates_error 1 eLong "t1" [jp1]
  have hmem : failFn 1 eLong "t1" jp1 ∈ mark_failed 1 eLong "t1" [jp1] :=
    List.mem_singleton.mpr rfl
  ⟨hmem, h.1 _ hmem rfl, h.2.2.1 (by decide)⟩

/-- Claim C7: `reset_stale_jobs` moves every `processing` row back to
`pending`, clearing `worker_pid` and `started_at`, leaves all other rows
unchanged, and returns the number of rows so reset; afterwards, if the store
held no pending job, a subsequent `get_next_pending` claims (and returns)
the reset job with the smallest id again. -/
theorem reset_stale_jobs_spec (s : List Job) (h : (s.map Job.id).Nodup)
    (pid : Nat) (now : String) :
    (reset_stale_jobs s).1 = s.map resetFn ∧
    (∀ j ∈ s, j.status = .processing → resetFn j =
      { j with status := .pending, worker_pid := none, started_at := none }) ∧
    (∀ j ∈ s, j.status ≠ .processing → resetFn j = j) ∧
    (reset_stale_jobs s).2 = (s.filter isProcessing).length ∧
    (∀ j0 ∈ s, j0.status = .processing → (∀ j ∈ s, j.status ≠ .pending) →
      (∀ j ∈ s, j.status = .processing → j0.id ≤ j.id) →
      (get_next_pending pid now (reset_stale_jobs s).1).2 =
        some { j0 with status := .processing, started_at := some now,
                       worker_pid := some pid }) := by
  refine ⟨reset_stale_jobs_fst s, ?_, ?_, reset_stale_jobs_snd s, ?_⟩
  · intro j _ hp
    unfold resetFn
    rw [if_pos ((isProcessing_iff j).mpr hp)]
  · intro j _ hp
    unfold resetFn
    rw [if_neg (fun hb => hp ((isProcessing_iff j).mp hb))]
  · intro j0 hj0 hproc hnopend hminproc
    rw [reset_stale_jobs_fst]
    have hids : (s.map resetFn).map Job.id = s.map Job.id := by
      rw [List.map_map]
      exact congrArg (fun f => s.map f) (funext resetFn_id)
    have h' : ((s.map resetFn).map Job.id).Nodup := by rw [hids]; exact h
    have hjp' : resetFn j0 =
        { j0 with status := .pending, worker_pid := none, started_at := none } := by
      unfold resetFn
      rw [if_pos ((isProcessing_iff j0).mpr hproc)]
    have hmem : ({ j0 with status := .pending, worker_pid := none, started_at := none } : Job) ∈ s.map resetFn :=
      List.mem_map.mpr ⟨j0, hj0, hjp'⟩
    have hmin : ∀ j ∈ s.map resetFn, j.status = .pending →
        ({ j0 with status := .pending, worker_pid := none, started_at := none } : Job).id ≤ j.id := by
      intro j hj hp
      rcases List.mem_map.mp hj with ⟨x, hx, hxj⟩
      by_cases hxp : isProcessing x = true
      · have : j.id = x.id := by rw [← hxj, resetFn_id]
        rw [this]
        exact hminproc x hx ((isProcessing_iff x).mp hxp)
      · exfalso
        have hjx : j = x := by
          rw [← hxj]
          unfold resetFn
          rw [if_neg hxp]
        exact hnopend x hx (by rw [← hjx, hp])
    have hside : ∀ x ∈ s.map resetFn, x.status = .processing →
        x.worker_pid = some pid →
        x.id < ({ j0 with status := .pending, worker_pid := none, started_at := none } : Job).id := by
      intro x hx hxs _
      exfalso
      rcases List.mem_map.mp hx with ⟨y, hy, hyx⟩
      by_cases hyp : isProcessing y = true
      · have : x.status = Status.pending := by
          rw [← hyx]
          unfold resetFn
          rw [if_pos hyp]
        rw [this] at hxs
        cases hxs
      · have hxy : x = y := by
          rw [← hyx]
          unfold resetFn
          rw [if_neg hyp]
        exact hyp ((isProcessing_iff y).mpr (by rw [← hxy, hxs]))
    have hc := claim_spec (s.map resetFn) h' pid now _ hmem rfl hmin
    exact hc.2.2.2.2 hside

/-- Claim C7 (witness): a crashed store holding the single `processing` job
`jproc2` is reset (count 1) and the job is then claimable again. -/
theorem reset_stale_jobs_spec_witness :
    (reset_stale_jobs [jproc2]).1 =
      [{ jproc2 with status := .pending, worker_pid := none, started_at := none }] ∧
    (reset_stale_jobs [jproc2]).2 = 1 ∧
    (get_next_pending 42 "t1" (reset_stale_jobs [jproc2]).1).2 =
      some { jproc2 with status := .processing, started_at := some "t1",
                         worker_pid := some 42 } :=
  have h := reset_stale_jobs_spec [jproc2] (by decide) 42 "t1"
  ⟨by rw [h.1]; rfl, by rw [h.2.2.2.1]; rfl,
   h.2.2.2.2 jproc2 (by decide) rfl (by decide) (by decide)⟩

/-- Claim C10: `mark_completed` and `mark_failed` on a job id absent from
the store match zero rows: the store is unchanged and no error is raised
(the operations are total functions). -/
theorem mark_unknown_job_id_noop (job_id : Nat) (nu lf e now : String)
    (s : List Job) (h : ∀ j ∈ s, j.id ≠ job_id) :
    mark_completed job_id nu lf now s = s ∧ mark_failed job_id e now s = s := by
  constructor
  · refine map_eq_self_of _ s ?_
    intro j hj
    unfold completeFn
    rw [if_neg (h j hj)]
  · refine map_eq_self_of _ s ?_
    intro j hj
    unfold failFn
    rw [if_neg (h j hj)]

/-- Claim C10 (witness): marking job id 2 in a store holding only job 1
leaves the store unchanged. -/
theorem mark_unknown_job_id_noop_witness :
    decide (jp1.id = 2) = false ∧
    mark_completed 2 "n" "f" "t1" [jp1] = [jp1] ∧
    mark_failed 2 "e" "t1" [jp1] = [jp1] :=
  have h := mark_unknown_job_id_noop 2 "n" "f" "e" "t1" [jp1] (by decide)
  ⟨by decide, h.1, h.2⟩

/-- Claim C8 (counterexample): a slot that is still unfinished when
termination is requested (job 5 with 3 units of Pipeline work remaining) is
never marked failed with the shutdown error: there is no grace bound in the
code — the shutdown wait runs the slot all the way to completion (3 units,
the full Pipeline duration), after which the mark-failed pass of the
`finally` block leaves the store untouched. -/
theorem shutdown_unfinished_slot_never_failed :
    futureDone ⟨5, 3⟩ = false ∧
    shutdownWaitTime [⟨5, 3⟩] = 3 ∧
    run_worker_finally "t9" [⟨5, 3⟩] [jproc2] = [jproc2] := by
  refine ⟨rfl, rfl, rfl⟩

/-- Claim C8 (amended): on a termination request the loop stops claiming new
jobs and exits; the shutdown path waits — without bound: for every candidate
grace bound G some slot makes the wait exceed G — for all in-flight slots to
finish, after which no slot is still unfinished, so the
mark-still-unfinished-slots-as-failed pass of the `finally` block changes
nothing: no job is ever failed with the shutdown error. -/
theorem shutdown_no_claim_no_marked_failed (pid cap G : Nat) (now : String)
    (done : List (Nat × FutureOutcome)) (slots : List Slot) (store : List Job) :
    run_worker_iteration true pid now cap done store = none ∧
    G < shutdownWaitTime [⟨1, G + 1⟩] ∧
    (executorShutdownWait slots).filter (fun sl => ! futureDone sl) = [] ∧
    run_worker_finally now slots store = store := by
  have hG : G < shutdownWaitTime [⟨1, G + 1⟩] := by
    show G < max (G + 1) 0
    rw [Nat.max_zero]
    exact Nat.lt_succ_self G
  have hnil : (executorShutdownWait slots).filter (fun sl => ! futureDone sl) = [] := by
    induction slots with
    | nil => rfl
    | cons sl rest ih =>
      show List.filter _ ({ sl with remaining := 0 } :: executorShutdownWait rest) = []
      rw [List.filter_cons]
      have hf : (! futureDone { sl with remaining := 0 }) = false := rfl
      rw [hf]
      simpa using ih
  refine ⟨rfl, hG, hnil, ?_⟩
  unfold run_worker_finally
  rw [hnil]
  rfl

/-- Claim C9: an exception raised during Pipeline execution is caught inside
`process_single_job` and converted into a "failed" result carrying the
message of the exception; the dispatcher loop records that result (and likewise
a crash re-raised by the future itself) via `mark_failed` with the same
message, and the loop keeps running — the iteration returns `some` next
state, never an exception and never loop exit. -/
theorem worker_exception_recorded_as_failure (job : Job) (e now : String)
    (store : List Job) (pid cap : Nat) :
    process_single_job job (.raised e) =
      { job_id := job.id, status := "failed", notion_url := "",
        local_file := "", error := e } ∧
    reap_one now store job.id (.value (process_single_job job (.raised e))) =
      mark_failed job.id e now store ∧
    reap_one now store job.id (.crashed e) = mark_failed job.id e now store ∧
    run_worker_iteration false pid now cap
        [(job.id, .value (process_single_job job (.raised e)))] store =
      some (claim_phase pid now cap (mark_failed job.id e now store)) := by
  have h2 : reap_one now store job.id (.value (process_single_job job (.raised e))) =
      mark_failed job.id e now store := by
    show (if ("failed" : String) = "completed" then
        mark_completed job.id "" "" now store
      else mark_failed job.id e now store) = mark_failed job.id e now store
    rw [if_neg (by decide)]
  refine ⟨rfl, h2, rfl, ?_⟩
  show some (claim_phase pid now cap
    (reap_one now store job.id (.value (process_single_job job (.raised e))))) = _
  rw [h2]

end TubeWise
